import Mathlib

/-!
Verification of the cdc-pipeline repository: a shallow embedding of the
LSN codec, the ack tracker, the replication-slot helpers, the replication
start-LSN resolution, the outer leader-cycle driver, and the JSON log
formatter, together with theorems settling the specification claims.

Pure helpers (`_resolve_slot_start_lsn`, `_parse_lsn_field`,
`JsonLogFormatter.format`) are translated from `src/`.  The database and
event-loop effects are embedded by passing the fetched rows / step
outcomes explicitly.  Components whose module is not shipped under `src/`
(the LSN codec `protocol.py`, the ack tracker `ack.py`, the replication
reader `replication.py`, the outer driver `app.py`) are modelled from the
specification, as marked in their doc comments.
-/

/-- Error kinds raised by the slot helpers and the LSN codec, mirroring
the exception distinctions in `slot.py` (SlotMissing via
`RuntimeError("Replication slot not found: ...")`, the unexpected-type
`RuntimeError`) and the codec failure `MalformedLSN`. -/
inductive CdcError where
  | slotMissing (slot_name : String)
  | unexpectedFieldType (slot_name field_name ty_name : String)
  | malformedLSN (text : String)
deriving DecidableEq, Repr

/-- Modelled from the spec: numeric value of one hexadecimal character
(the LSN codec in `protocol.py` is not shipped under `src/`).  Accepts
the digits and both letter cases; every other character is rejected. -/
def hexVal (c : Char) : Option Nat :=
  if 48 ≤ c.toNat ∧ c.toNat ≤ 57 then some (c.toNat - 48)
  else if 65 ≤ c.toNat ∧ c.toNat ≤ 70 then some (c.toNat - 55)
  else if 97 ≤ c.toNat ∧ c.toNat ≤ 102 then some (c.toNat - 87)
  else none

/-- A character is hexadecimal exactly when `hexVal` accepts it. -/
def isHexChar (c : Char) : Bool :=
  (hexVal c).isSome

/-- Modelled from the spec: accumulate hexadecimal characters
most-significant first, failing on the first non-hexadecimal one. -/
def parseHexLoop : Nat → List Char → Option Nat
  | acc, [] => some acc
  | acc, c :: cs =>
    match hexVal c with
    | some v => parseHexLoop (acc * 16 + v) cs
    | none => none

/-- Modelled from the spec: parse a non-empty all-hexadecimal character
list as a base-16 number; an empty side of the LSN text is rejected. -/
def parseHex (cs : List Char) : Option Nat :=
  if cs.isEmpty then none else parseHexLoop 0 cs

/-- Modelled from the spec: the uppercase hexadecimal digit character for
a value below 16, as produced by the format string percent-X. -/
def hexDigitChar (d : Nat) : Char :=
  match d with
  | 0 => '0'
  | 1 => '1'
  | 2 => '2'
  | 3 => '3'
  | 4 => '4'
  | 5 => '5'
  | 6 => '6'
  | 7 => '7'
  | 8 => '8'
  | 9 => '9'
  | 10 => 'A'
  | 11 => 'B'
  | 12 => 'C'
  | 13 => 'D'
  | 14 => 'E'
  | _ => 'F'

/-- Modelled from the spec: hexadecimal digits of `n`, least significant
first; the empty list for zero.  `fuel` bounds the recursion and any
`fuel ≥ n` yields the exact digit string. -/
def toHexDigitsRev (fuel n : Nat) : List Char :=
  match fuel with
  | 0 => []
  | fuel + 1 =>
    if n = 0 then []
    else hexDigitChar (n % 16) :: toHexDigitsRev fuel (n / 16)

/-- Modelled from the spec: unpadded uppercase hexadecimal rendering of a
natural number, percent-X style (zero renders as the single digit 0). -/
def natToHex (n : Nat) : String :=
  if n = 0 then "0" else String.mk (toHexDigitsRev n n).reverse

/-- Modelled from the spec: split a character list on every occurrence of
the slash separator, the list analogue of Python str.split. -/
def splitOnSlash : List Char → List (List Char)
  | [] => [[]]
  | c :: rest =>
    if c = '/' then [] :: splitOnSlash rest
    else
      match splitOnSlash rest with
      | [] => [[c]]
      | g :: gs => (c :: g) :: gs

/-- Modelled from the spec: `lsn_str_to_int` of `protocol.py` (not under
`src/`).  Split on the slash, parse each side as base-16, and combine as
`(H <<< 32) ||| L`; a missing separator, an empty side, or a
non-hexadecimal character fails with `MalformedLSN`. -/
def lsn_str_to_int (s : String) : Except CdcError Nat :=
  match splitOnSlash s.data with
  | [h, l] =>
    match parseHex h, parseHex l with
    | some hv, some lv => .ok ((hv <<< 32) ||| lv)
    | _, _ => .error (.malformedLSN s)
  | _ => .error (.malformedLSN s)

/-- Modelled from the spec: `lsn_int_to_str` of `protocol.py` (not under
`src/`).  Emit the high and low 32-bit halves as unpadded uppercase hex
separated by a slash. -/
def lsn_int_to_str (n : Nat) : String :=
  natToHex (n / 2 ^ 32) ++ "/" ++ natToHex (n % 2 ^ 32)

/-- Database value shapes a fetched slot column can take, as
`_parse_lsn_field` in `slot.py` distinguishes them: SQL NULL, a text
value, or a value of some other Python type (carried by type name). -/
inductive PgValue where
  | null
  | text (s : String)
  | other (ty_name : String)
deriving DecidableEq, Repr

/-- Embedding of `_parse_lsn_field` from `slot.py`: `None` maps to no
LSN, a non-string raises the unexpected-type error, and a string is fed
to the LSN codec. -/
def _parse_lsn_field (slot_name field_name : String) (value : PgValue) :
    Except CdcError (Option Nat) :=
  match value with
  | .null => .ok none
  | .text s => (lsn_str_to_int s).map some
  | .other ty_name => .error (.unexpectedFieldType slot_name field_name ty_name)

/-- Embedding of `_resolve_slot_start_lsn` from `slot.py`: prefer the
confirmed flush LSN, then the restart LSN, then zero. -/
def _resolve_slot_start_lsn (slot_name : String)
    (confirmed_flush_lsn restart_lsn : PgValue) : Except CdcError Nat :=
  match _parse_lsn_field slot_name "confirmed_flush_lsn" confirmed_flush_lsn with
  | .error e => .error e
  | .ok (some n) => .ok n
  | .ok none =>
    match _parse_lsn_field slot_name "restart_lsn" restart_lsn with
    | .error e => .error e
    | .ok (some n) => .ok n
    | .ok none => .ok 0

/-- Embedding of `get_replication_slot_confirmed_lsn` from `slot.py`,
applied to the row fetched by its slot lookup query: a missing row raises
the slot-missing error, otherwise the row's two columns are resolved by
`_resolve_slot_start_lsn`. -/
def get_replication_slot_confirmed_lsn (slot_name : String)
    (row : Option (PgValue × PgValue)) : Except CdcError Nat :=
  match row with
  | none => .error (.slotMissing slot_name)
  | some (confirmed, restart) => _resolve_slot_start_lsn slot_name confirmed restart

/-- Modelled from the spec: the ack tracker state of `ack.py` (not under
`src/`), the triple of frontier, highest registered LSN, and the pending
map from ack id to LSN, plus the next id counter. -/
structure AckTracker where
  frontier_lsn : Nat
  last_registered_lsn : Nat
  pending : List (Nat × Nat)
  next_id : Nat
deriving DecidableEq, Repr

/-- Modelled from the spec: construct a tracker with both LSNs seeded to
the initial LSN, no pending acks, and ids starting at 1. -/
def AckTracker.new (initial_lsn : Nat) : AckTracker :=
  ⟨initial_lsn, initial_lsn, [], 1⟩

/-- Modelled from the spec: register an event's LSN, assigning the next
dense ack id, recording the pending entry, and raising the highest
registered LSN; no monotonicity of the LSN argument is required. -/
def AckTracker.register (t : AckTracker) (lsn : Nat) : Nat × AckTracker :=
  (t.next_id,
   { t with
       pending := t.pending ++ [(t.next_id, lsn)]
       last_registered_lsn := max t.last_registered_lsn lsn
       next_id := t.next_id + 1 })

/-- Minimum LSN among a pending list, when it is non-empty. -/
def pendingMinLsn : List (Nat × Nat) → Option Nat
  | [] => none
  | (_, l) :: rest =>
    match pendingMinLsn rest with
    | none => some l
    | some m => some (min l m)

/-- Modelled from the spec: complete an ack id.  The entry is removed
from pending; with `L` the minimum remaining pending LSN (or the highest
registered LSN when pending drained) the frontier moves to
`max frontier L`, and the new frontier is emitted exactly when it
strictly exceeds the old one. -/
def AckTracker.complete (t : AckTracker) (ack_id : Nat) : Option Nat × AckTracker :=
  let remaining := t.pending.filter (fun p => p.fst != ack_id)
  let l :=
    match pendingMinLsn remaining with
    | some m => m
    | none => t.last_registered_lsn
  let new_frontier := max t.frontier_lsn l
  if t.frontier_lsn < new_frontier then
    (some new_frontier, { t with pending := remaining, frontier_lsn := new_frontier })
  else
    (none, { t with pending := remaining })

/-- Operations of the ack tracker's public API, for quantifying over
whole tracker histories. -/
inductive AckOp where
  | doRegister (lsn : Nat)
  | doComplete (ack_id : Nat)
deriving DecidableEq, Repr

/-- State transition of one ack-tracker operation. -/
def applyAckOp (t : AckTracker) (op : AckOp) : AckTracker :=
  match op with
  | .doRegister lsn => (t.register lsn).2
  | .doComplete ack_id => (t.complete ack_id).2

/-- Tracker state after a whole history of operations from a fresh
tracker. -/
def runAckOps (initial_lsn : Nat) (ops : List AckOp) : AckTracker :=
  ops.foldl applyAckOp (AckTracker.new initial_lsn)

/-- Histories whose registrations never fall below the frontier current
at the moment of registration. -/
def validAckOpsFrom : AckTracker → List AckOp → Bool
  | _, [] => true
  | t, .doRegister lsn :: rest =>
    decide (t.frontier_lsn ≤ lsn) && validAckOpsFrom (applyAckOp t (.doRegister lsn)) rest
  | t, .doComplete ack_id :: rest =>
    validAckOpsFrom (applyAckOp t (.doComplete ack_id)) rest

/-- Register a whole list of LSNs in order, collecting the returned ack
ids and the final tracker state. -/
def registerAll : AckTracker → List Nat → List Nat × AckTracker
  | t, [] => ([], t)
  | t, lsn :: rest =>
    let r := t.register lsn
    let tail := registerAll r.2 rest
    (r.1 :: tail.1, tail.2)

/-- Modelled from the spec: `_resolve_start_lsn` of `replication.py` (not
under `src/`): the replication reader starts from the larger of the
tracker's frontier and its highest registered LSN. -/
def _resolve_start_lsn (frontier_lsn last_registered_lsn : Nat) : Nat :=
  max frontier_lsn last_registered_lsn

/-- Modelled from the spec: the START_REPLICATION statement issued by the
replication reader, with the start LSN in text form. -/
def start_replication_statement (slot_name plugin_options : String)
    (start_lsn : Nat) : String :=
  "START_REPLICATION SLOT " ++ slot_name ++ " LOGICAL " ++
    lsn_int_to_str start_lsn ++ " (" ++ plugin_options ++ ")"

/-- Outcome of one awaited step of a leader cycle: a value, a
non-cancellation exception, or task cancellation. -/
inductive StepOutcome (α : Type) where
  | ok (value : α)
  | failure (message : String)
  | cancelled
deriving DecidableEq, Repr

/-- Modelled from the spec: the scripted behaviour of one iteration of
the outer driver loop in `app.py` (not under `src/`): whether leadership
is acquired (leader election retries internally, so it either yields a
session or is cancelled), and the outcomes of the ensure-slot call, the
start-LSN lookup, and the leader pipeline. -/
structure CycleScript where
  acquires : Bool
  ensure_slot : StepOutcome Bool
  slot_lookup : StepOutcome Nat
  pipeline : StepOutcome Unit
deriving DecidableEq, Repr

/-- How a whole driver run ended: by cancellation, or because the script
had no further cycle behaviours. -/
inductive RunOutcome where
  | cancelled
  | scriptExhausted
deriving DecidableEq, Repr

/-- Observable trace of the outer driver: error-level log messages,
number of leader-session closes, the initial frontier LSN of each leader
pipeline actually started, and how the run ended. -/
structure RunTrace where
  error_logs : List String
  session_closes : Nat
  pipeline_starts : List Nat
  outcome : RunOutcome
deriving DecidableEq, Repr

/-- Modelled from the spec: the body of one leader cycle after the
session is acquired (ensure the slot, look up the start LSN, run the
pipeline with it), returning the body's outcome together with the list of
pipeline starts it performed. -/
def cycleBody (s : CycleScript) : StepOutcome Unit × List Nat :=
  match s.ensure_slot with
  | .failure m => (.failure m, [])
  | .cancelled => (.cancelled, [])
  | .ok _ =>
    match s.slot_lookup with
    | .failure m => (.failure m, [])
    | .cancelled => (.cancelled, [])
    | .ok n =>
      match s.pipeline with
      | .failure m => (.failure m, [n])
      | .cancelled => (.cancelled, [n])
      | .ok _ => (.ok (), [n])

/-- Modelled from the spec: the outer driver loop of `app.py` (not under
`src/`).  Each cycle waits for leadership, runs the cycle body, and
closes the leader session; a non-cancellation failure logs one
leader_cycle_failed record and re-enters leader election, while
cancellation propagates without being logged as a failure. -/
def runDriver : List CycleScript → RunTrace
  | [] => ⟨[], 0, [], .scriptExhausted⟩
  | s :: rest =>
    if s.acquires then
      match cycleBody s with
      | (.cancelled, started) => ⟨[], 1, started, .cancelled⟩
      | (.failure _, started) =>
        let t := runDriver rest
        ⟨"leader_cycle_failed" :: t.error_logs, 1 + t.session_closes,
          started ++ t.pipeline_starts, t.outcome⟩
      | (.ok _, started) =>
        let t := runDriver rest
        ⟨t.error_logs, 1 + t.session_closes, started ++ t.pipeline_starts, t.outcome⟩
    else ⟨[], 0, [], .cancelled⟩

/-- Scripted database behaviour seen by `ensure_replication_slot`: the
outcome of fetching the existence-check row, and the outcome of the
slot-creation statement, each possibly an exception. -/
structure SlotDbScript where
  exists_result : Except String (Option Unit)
  create_result : Except String Unit
deriving Repr

/-- Observable result of `ensure_replication_slot`: its return value or
exception, whether the creation statement was executed, and whether the
connection was closed on the way out. -/
structure EnsureResult where
  result : Except String Bool
  create_executed : Bool
  connection_closed : Bool
deriving Repr

/-- Embedding of `ensure_replication_slot` from `slot.py`: run the
existence check; when a row exists return False, otherwise execute the
creation statement and return True; exceptions propagate, and the
try/finally closes the connection on every path. -/
def ensure_replication_slot (db : SlotDbScript) : EnsureResult :=
  let body : Except String Bool × Bool :=
    match db.exists_result with
    | .error e => (.error e, false)
    | .ok (some _) => (.ok false, false)
    | .ok none =>
      match db.create_result with
      | .error e => (.error e, true)
      | .ok _ => (.ok true, true)
  ⟨body.1, body.2, true⟩

/-- Python values that can appear as extra attributes on a log record,
as `_json_default` in `json_logging.py` distinguishes them: natively
JSON-serializable scalars, bytes-like values (carrying the rendering of
repr of their bytes), and any other object (carrying its str
rendering). -/
inductive PyValue where
  | pyStr (s : String)
  | pyInt (n : Int)
  | pyBool (b : Bool)
  | pyNone
  | pyBytes (repr_text : String)
  | pyOther (str_text : String)
deriving DecidableEq, Repr

/-- JSON values as produced by the formatter, the shallow embedding of
the dictionary that json.dumps serializes. -/
inductive Json where
  | jstr (s : String)
  | jint (n : Int)
  | jbool (b : Bool)
  | jnull
  | jobj (fields : List (String × Json))
deriving Repr

/-- Embedding of `_json_default` from `json_logging.py`: bytes-like
values render via repr of their bytes, anything else via str; the hook
never fails. -/
def _json_default (v : PyValue) : String :=
  match v with
  | .pyBytes repr_text => repr_text
  | .pyOther str_text => str_text
  | .pyStr s => s
  | .pyInt n => toString n
  | .pyBool b => if b then "True" else "False"
  | .pyNone => "None"

/-- Embedding of the json.dumps value encoding with a default hook:
natively serializable values encode directly, any other value is
replaced by what the hook returns, and the encoding fails (json.dumps
raises) exactly when the hook fails. -/
def encodeValue (default : PyValue → Option String) (v : PyValue) : Option Json :=
  match v with
  | .pyStr s => some (.jstr s)
  | .pyInt n => some (.jint n)
  | .pyBool b => some (.jbool b)
  | .pyNone => some .jnull
  | .pyBytes r => (default (.pyBytes r)).map .jstr
  | .pyOther s => (default (.pyOther s)).map .jstr

/-- Encode every extra attribute of a record, failing when any single
value fails to encode. -/
def encodeExtra (default : PyValue → Option String) :
    List (String × PyValue) → Option (List (String × Json))
  | [] => some []
  | (k, v) :: rest =>
    match encodeValue default v, encodeExtra default rest with
    | some j, some js => some ((k, j) :: js)
    | _, _ => none

/-- The default hook of the formatter, lifted to the fallible hook shape
expected by json.dumps (it always succeeds). -/
def jsonDefaultHook (v : PyValue) : Option String :=
  some (_json_default v)

/-- Shallow state of a Python LogRecord as `JsonLogFormatter.format`
reads it: logger name, level name, the rendered message, the rendered
timestamp, the rendered exception info when the record carries one, and
the non-default extra attributes. -/
structure LogRecord where
  name : String
  levelname : String
  message : String
  timestamp_text : String
  exc_text : Option String
  extra : List (String × PyValue)
deriving DecidableEq, Repr

/-- Embedding of `JsonLogFormatter.format` from `json_logging.py`: build
the payload with timestamp, level, logger and message, add the extra
mapping when non-empty, add exc_info when the record carries exception
info, and serialize with the default hook.  The result is the JSON
object value that json.dumps renders, or failure when serialization
would raise. -/
def JsonLogFormatter.format (default : PyValue → Option String)
    (r : LogRecord) : Option Json :=
  let base : List (String × Json) :=
    [("timestamp", .jstr r.timestamp_text),
     ("level", .jstr r.levelname),
     ("logger", .jstr r.name),
     ("message", .jstr r.message)]
  let withExtra : Option (List (String × Json)) :=
    match r.extra with
    | [] => some base
    | _ :: _ =>
      (encodeExtra default r.extra).map (fun ej => base ++ [("extra", .jobj ej)])
  match withExtra with
  | none => none
  | some fields =>
    match r.exc_text with
    | some t => some (.jobj (fields ++ [("exc_info", .jstr t)]))
    | none => some (.jobj fields)

theorem hexVal_hexDigitChar (d : Nat) (hd : d < 16) : hexVal (hexDigitChar d) = some d := by
  interval_cases d <;> decide

theorem hexDigitChar_ne_slash (d : Nat) (hd : d < 16) : hexDigitChar d ≠ '/' := by
  interval_cases d <;> decide

theorem parseHexLoop_append (xs ys : List Char) (acc : Nat) :
    parseHexLoop acc (xs ++ ys) =
      match parseHexLoop acc xs with
      | some b => parseHexLoop b ys
      | none => none := by
  induction xs generalizing acc with
  | nil => rfl
  | cons c cs ih =>
    simp only [List.cons_append, parseHexLoop]
    cases h : hexVal c with
    | none => rfl
    | some v => exact ih _

theorem toHexDigitsRev_spec (fuel : Nat) :
    ∀ n, n ≤ fuel →
      (∀ c ∈ toHexDigitsRev fuel n, isHexChar c = true ∧ c ≠ '/') ∧
      ∀ acc, parseHexLoop acc (toHexDigitsRev fuel n).reverse =
        some (acc * 16 ^ (toHexDigitsRev fuel n).length + n) := by
  induction fuel with
  | zero =>
    intro n hn
    have h0 : n = 0 := Nat.le_zero.mp hn
    subst h0
    refine ⟨?_, ?_⟩
    · intro c hc
      simp [toHexDigitsRev] at hc
    · intro acc
      simp [toHexDigitsRev, parseHexLoop]
  | succ fuel ih =>
    intro n hn
    by_cases h0 : n = 0
    · subst h0
      exact ⟨by intro c hc; simp [toHexDigitsRev] at hc,
        by intro acc; simp [toHexDigitsRev, parseHexLoop]⟩
    · have hdiv : n / 16 ≤ fuel := by
        have : n / 16 < n := Nat.div_lt_self (Nat.pos_of_ne_zero h0) (by omega)
        omega
      obtain ⟨ihc, ihp⟩ := ih (n / 16) hdiv
      have hmod : n % 16 < 16 := Nat.mod_lt _ (by omega)
      constructor
      · intro c hc
        simp only [toHexDigitsRev, if_neg h0, List.mem_cons] at hc
        rcases hc with rfl | hc2
        · exact ⟨by simp [isHexChar, hexVal_hexDigitChar _ hmod],
            hexDigitChar_ne_slash _ hmod⟩
        · exact ihc c hc2
      · intro acc
        simp only [toHexDigitsRev, if_neg h0, List.reverse_cons]
        rw [parseHexLoop_append, ihp acc]
        simp only [parseHexLoop, hexVal_hexDigitChar _ hmod, List.length_cons]
        congr 1
        rw [pow_succ, ← Nat.mul_assoc]
        omega

theorem natToHex_spec (m : Nat) :
    parseHex (natToHex m).data = some m ∧ (natToHex m).data ≠ [] ∧
      ∀ c ∈ (natToHex m).data, isHexChar c = true ∧ c ≠ '/' := by
  by_cases h0 : m = 0
  · subst h0
    exact ⟨by decide, by decide, by decide⟩
  · obtain ⟨hc, hp⟩ := toHexDigitsRev_spec m m le_rfl
    have hne : toHexDigitsRev m m ≠ [] := by
      obtain ⟨k, rfl⟩ := Nat.exists_eq_succ_of_ne_zero h0
      simp [toHexDigitsRev]
    have hdata : (natToHex m).data = (toHexDigitsRev m m).reverse := by
      simp [natToHex, h0]
    refine ⟨?_, ?_, ?_⟩
    · rw [hdata]
      have hrne : ¬ (toHexDigitsRev m m).reverse.isEmpty := by
        simp [List.isEmpty_iff, hne]
      rw [parseHex, if_neg hrne, hp 0]
      simp
    · rw [hdata]
      simp [hne]
    · intro c hcmem
      rw [hdata, List.mem_reverse] at hcmem
      exact hc c hcmem

theorem splitOnSlash_ne_nil (cs : List Char) : splitOnSlash cs ≠ [] := by
  induction cs with
  | nil => simp [splitOnSlash]
  | cons c rest ih =>
    simp only [splitOnSlash]
    by_cases h : c = '/'
    · simp [h]
    · simp only [if_neg h]
      cases hs : splitOnSlash rest with
      | nil => simp
      | cons g gs => simp

theorem splitOnSlash_no_slash (l : List Char) (hl : '/' ∉ l) : splitOnSlash l = [l] := by
  induction l with
  | nil => rfl
  | cons c rest ih =>
    have hc : c ≠ '/' := fun h => hl (h ▸ List.mem_cons_self c rest)
    have hrest : '/' ∉ rest := fun h => hl (List.mem_cons_of_mem _ h)
    simp only [splitOnSlash, if_neg hc, ih hrest]

theorem splitOnSlash_append (h l : List Char) (hh : '/' ∉ h) :
    splitOnSlash (h ++ '/' :: l) = h :: splitOnSlash l := by
  induction h with
  | nil => simp [splitOnSlash]
  | cons c rest ih =>
    have hc : c ≠ '/' := fun hx => hh (hx ▸ List.mem_cons_self c rest)
    have hrest : '/' ∉ rest := fun hx => hh (List.mem_cons_of_mem _ hx)
    simp only [List.cons_append, splitOnSlash, if_neg hc, List.append_eq]
    rw [ih hrest]

theorem splitOnSlash_eq_single (cs l : List Char) (h : splitOnSlash cs = [l]) :
    cs = l ∧ '/' ∉ l := by
  induction cs generalizing l with
  | nil =>
    simp only [splitOnSlash] at h
    obtain rfl : ([] : List Char) = l := (List.cons.injEq _ _ _ _).mp h |>.1
    exact ⟨rfl, by simp⟩
  | cons c rest ih =>
    simp only [splitOnSlash] at h
    by_cases hc : c = '/'
    · rw [if_pos hc] at h
      obtain ⟨h1, h2⟩ := (List.cons.injEq _ _ _ _).mp h
      exact absurd h2 (splitOnSlash_ne_nil rest)
    · rw [if_neg hc] at h
      cases hs : splitOnSlash rest with
      | nil => exact absurd hs (splitOnSlash_ne_nil rest)
      | cons g gs =>
        rw [hs] at h
        obtain ⟨h1, h2⟩ := (List.cons.injEq _ _ _ _).mp h
        have hgs : gs = [] := by
          cases gs with
          | nil => rfl
          | cons x xs => simp at h2
        subst hgs
        obtain ⟨hrest, hslash⟩ := ih g (by rw [hs])
        subst hrest
        refine ⟨by rw [← h1], ?_⟩
        rw [← h1]
        intro hmem
        rcases List.mem_cons.mp hmem with h3 | h3
        · exact hc h3.symm
        · exact hslash h3

theorem splitOnSlash_eq_pair (cs h l : List Char) (hs : splitOnSlash cs = [h, l]) :
    cs = h ++ '/' :: l ∧ '/' ∉ h ∧ '/' ∉ l := by
  induction cs generalizing h with
  | nil => simp [splitOnSlash] at hs
  | cons c rest ih =>
    simp only [splitOnSlash] at hs
    by_cases hc : c = '/'
    · rw [if_pos hc] at hs
      obtain ⟨h1, h2⟩ := (List.cons.injEq _ _ _ _).mp hs
      obtain ⟨hrest, hslash⟩ := splitOnSlash_eq_single rest l h2
      subst hrest
      refine ⟨?_, ?_, hslash⟩
      · rw [← h1, hc]
        rfl
      · rw [← h1]
        simp
    · rw [if_neg hc] at hs
      cases hr : splitOnSlash rest with
      | nil => exact absurd hr (splitOnSlash_ne_nil rest)
      | cons g gs =>
        rw [hr] at hs
        obtain ⟨h1, h2⟩ := (List.cons.injEq _ _ _ _).mp hs
        obtain ⟨hrest, hg, hl⟩ := ih g (by rw [hr, h2])
        subst hrest
        refine ⟨?_, ?_, hl⟩
        · rw [← h1]
          rfl
        · rw [← h1]
          intro hmem
          rcases List.mem_cons.mp hmem with h3 | h3
          · exact hc h3.symm
          · exact hg h3

theorem high_shift_or_low (n : Nat) : ((n / 2 ^ 32) <<< 32) ||| (n % 2 ^ 32) = n := by
  apply Nat.eq_of_testBit_eq
  intro i
  rw [Nat.testBit_lor, Nat.testBit_shiftLeft, Nat.testBit_mod_two_pow,
    ← Nat.shiftRight_eq_div_pow]
  rcases Nat.lt_or_ge i 32 with h | h
  · simp [Nat.not_le.mpr h, h]
  · rw [Nat.testBit_shiftRight]
    have h3 : 32 + (i - 32) = i := by omega
    rw [h3]
    simp [h, Nat.not_lt.mpr h]

theorem lsn_int_to_str_data (n : Nat) :
    (lsn_int_to_str n).data =
      (natToHex (n / 2 ^ 32)).data ++ '/' :: (natToHex (n % 2 ^ 32)).data := by
  simp only [lsn_int_to_str, String.data_append, List.append_assoc,
    List.singleton_append]

/-- Claim C6: the LSN codec round-trips: for every natural number n (in
particular every unsigned 64-bit value, including 0, 1, 2^32 - 1, 2^32
and 2^64 - 1), `lsn_str_to_int (lsn_int_to_str n) = n`. -/
theorem lsn_codec_roundtrip (n : Nat) :
    lsn_str_to_int (lsn_int_to_str n) = .ok n := by
  obtain ⟨hp1, hne1, hchars1⟩ := natToHex_spec (n / 2 ^ 32)
  obtain ⟨hp2, hne2, hchars2⟩ := natToHex_spec (n % 2 ^ 32)
  have hslash1 : '/' ∉ (natToHex (n / 2 ^ 32)).data :=
    fun hmem => (hchars1 _ hmem).2 rfl
  have hslash2 : '/' ∉ (natToHex (n % 2 ^ 32)).data :=
    fun hmem => (hchars2 _ hmem).2 rfl
  rw [lsn_str_to_int, lsn_int_to_str_data, splitOnSlash_append _ _ hslash1,
    splitOnSlash_no_slash _ hslash2]
  simp only [hp1, hp2]
  rw [high_shift_or_low]

theorem parseHexLoop_isSome_of_hex (cs : List Char)
    (hc : ∀ c ∈ cs, isHexChar c = true) : ∀ acc, (parseHexLoop acc cs).isSome := by
  induction cs with
  | nil => intro acc; simp [parseHexLoop]
  | cons c rest ih =>
    intro acc
    have hhead : isHexChar c = true := hc c (List.mem_cons_self c rest)
    obtain ⟨v, hv⟩ := Option.isSome_iff_exists.mp hhead
    simp only [parseHexLoop, hv]
    exact ih (fun x hx => hc x (List.mem_cons_of_mem _ hx)) _

theorem hex_of_parseHexLoop_some (cs : List Char) :
    ∀ acc v, parseHexLoop acc cs = some v → ∀ c ∈ cs, isHexChar c = true := by
  induction cs with
  | nil => intro acc v h c hc; cases hc
  | cons c rest ih =>
    intro acc v h x hx
    rcases hval : hexVal c with _ | w
    · rw [parseHexLoop, hval] at h
      cases h
    · rw [parseHexLoop, hval] at h
      rcases List.mem_cons.mp hx with rfl | hx2
      · simp [isHexChar, hval]
      · exact ih _ _ h x hx2

theorem parseHex_some_iff (cs : List Char) :
    (∃ v, parseHex cs = some v) ↔ cs ≠ [] ∧ ∀ c ∈ cs, isHexChar c = true := by
  constructor
  · rintro ⟨v, hv⟩
    rw [parseHex] at hv
    by_cases he : cs.isEmpty
    · rw [if_pos he] at hv
      cases hv
    · rw [if_neg he] at hv
      exact ⟨fun h => he (by simp [h]), hex_of_parseHexLoop_some cs 0 v hv⟩
  · rintro ⟨hne, hhex⟩
    have hsome := parseHexLoop_isSome_of_hex cs hhex 0
    obtain ⟨v, hv⟩ := Option.isSome_iff_exists.mp hsome
    refine ⟨v, ?_⟩
    rw [parseHex, if_neg (by simp [hne]), hv]

theorem lsn_str_to_int_error_shape (s : String) (e : CdcError)
    (h : lsn_str_to_int s = .error e) : e = .malformedLSN s := by
  rw [lsn_str_to_int] at h
  rcases hsplit : splitOnSlash s.data with _ | ⟨h1, _ | ⟨l1, _ | ⟨x, rest⟩⟩⟩ <;>
    rw [hsplit] at h
  · cases h
    rfl
  · cases h
    rfl
  · rcases hph : parseHex h1 with _ | hv <;> rcases hpl : parseHex l1 with _ | lv <;>
      simp only [hph, hpl] at h <;> cases h <;> rfl
  · cases h
    rfl

theorem lsn_str_to_int_ok_of_wf (h l : List Char) (hh : h ≠ []) (hl : l ≠ [])
    (hsh : '/' ∉ h) (hsl : '/' ∉ l)
    (hhexh : ∀ c ∈ h, isHexChar c = true) (hhexl : ∀ c ∈ l, isHexChar c = true) :
    ∃ hv lv, parseHex h = some hv ∧ parseHex l = some lv ∧
      lsn_str_to_int (String.mk (h ++ '/' :: l)) = .ok ((hv <<< 32) ||| lv) := by
  obtain ⟨hv, hph⟩ := (parseHex_some_iff h).mpr ⟨hh, hhexh⟩
  obtain ⟨lv, hpl⟩ := (parseHex_some_iff l).mpr ⟨hl, hhexl⟩
  refine ⟨hv, lv, hph, hpl, ?_⟩
  rw [lsn_str_to_int]
  rw [show (String.mk (h ++ '/' :: l)).data = h ++ '/' :: l from rfl]
  rw [splitOnSlash_append _ _ hsh, splitOnSlash_no_slash _ hsl]
  simp [hph, hpl]

theorem lsn_str_to_int_wf_of_ok (s : String) (v : Nat)
    (h : lsn_str_to_int s = .ok v) :
    ∃ hs ls : List Char, s.data = hs ++ '/' :: ls ∧ hs ≠ [] ∧ ls ≠ [] ∧
      '/' ∉ hs ∧ '/' ∉ ls ∧ (∀ c ∈ hs, isHexChar c = true) ∧
      ∀ c ∈ ls, isHexChar c = true := by
  rw [lsn_str_to_int] at h
  rcases hsplit : splitOnSlash s.data with _ | ⟨h1, _ | ⟨l1, _ | ⟨x, rest⟩⟩⟩ <;>
    rw [hsplit] at h
  · cases h
  · cases h
  · rcases hph : parseHex h1 with _ | hv <;> rcases hpl : parseHex l1 with _ | lv <;>
      simp only [hph, hpl] at h
    · cases h
    · cases h
    · cases h
    · obtain ⟨hdata, hsh, hsl⟩ := splitOnSlash_eq_pair s.data h1 l1 hsplit
      obtain ⟨hne1, hhex1⟩ := (parseHex_some_iff h1).mp ⟨hv, hph⟩
      obtain ⟨hne2, hhex2⟩ := (parseHex_some_iff l1).mp ⟨lv, hpl⟩
      exact ⟨h1, l1, hdata, hne1, hne2, hsh, hsl, hhex1, hhex2⟩
  · cases h

/-- Claim C7: LSN parsing fails with MalformedLSN exactly when the slash
separator is absent, a side of it is empty, or a non-hexadecimal
character appears; on every other input it returns the high side shifted
left by 32 bits or-ed with the low side, both read as base-16. -/
theorem lsn_parse_characterization :
    (∀ h l : List Char, h ≠ [] → l ≠ [] → '/' ∉ h → '/' ∉ l →
        (∀ c ∈ h, isHexChar c = true) → (∀ c ∈ l, isHexChar c = true) →
        ∃ hv lv, parseHex h = some hv ∧ parseHex l = some lv ∧
          lsn_str_to_int (String.mk (h ++ '/' :: l)) = .ok ((hv <<< 32) ||| lv)) ∧
    (∀ s : String, (∃ e, lsn_str_to_int s = .error e) ↔
        ¬ ∃ hs ls : List Char, s.data = hs ++ '/' :: ls ∧ hs ≠ [] ∧ ls ≠ [] ∧
          '/' ∉ hs ∧ '/' ∉ ls ∧ (∀ c ∈ hs, isHexChar c = true) ∧
          ∀ c ∈ ls, isHexChar c = true) ∧
    ∀ s e, lsn_str_to_int s = .error e → e = .malformedLSN s := by
  refine ⟨lsn_str_to_int_ok_of_wf, ?_, lsn_str_to_int_error_shape⟩
  intro s
  constructor
  · rintro ⟨e, he⟩ ⟨hs, ls, hdata, hne1, hne2, hsh, hsl, hhex1, hhex2⟩
    obtain ⟨hv, lv, hph, hpl, hok⟩ :=
      lsn_str_to_int_ok_of_wf hs ls hne1 hne2 hsh hsl hhex1 hhex2
    have hsame : s = String.mk (hs ++ '/' :: ls) := by
      cases s with
      | mk data => exact congrArg String.mk hdata
    rw [← hsame] at hok
    rw [he] at hok
    cases hok
  · intro hnwf
    cases hres : lsn_str_to_int s with
    | error e => exact ⟨e, rfl⟩
    | ok v => exact absurd (lsn_str_to_int_wf_of_ok s v hres) hnwf

/-- Witness for the C7 characterization: the decomposition 1 slash F is
well formed, the parse accepts it, and the string 1Z fails. -/
theorem lsn_parse_characterization_witness :
    (∃ hv lv, parseHex ['1'] = some hv ∧ parseHex ['F'] = some lv ∧
      lsn_str_to_int (String.mk (['1'] ++ '/' :: ['F'])) = .ok ((hv <<< 32) ||| lv)) ∧
    ∃ e, lsn_str_to_int "1Z" = .error e := by
  constructor
  · exact lsn_parse_characterization.1 ['1'] ['F'] (by decide) (by decide)
      (by decide) (by decide) (by decide) (by decide)
  · refine (lsn_parse_characterization.2.1 "1Z").mpr ?_
    rintro ⟨hs, ls, hdata, hne1, hne2, hsh, hsl, hhex1, hhex2⟩
    have : '/' ∈ ("1Z" : String).data := by
      rw [hdata]
      exact List.mem_append.mpr (Or.inr (List.mem_cons_self _ _))
    simp at this

theorem pendingMinLsn_none_iff (ps : List (Nat × Nat)) :
    pendingMinLsn ps = none ↔ ps = [] := by
  cases ps with
  | nil => simp [pendingMinLsn]
  | cons p rest =>
    obtain ⟨pid, plsn⟩ := p
    rw [pendingMinLsn]
    rcases pendingMinLsn rest with _ | m <;> simp

theorem pendingMinLsn_le (ps : List (Nat × Nat)) :
    ∀ m, pendingMinLsn ps = some m → ∀ q ∈ ps, m ≤ q.snd := by
  induction ps with
  | nil => intro m hm q hq; cases hq
  | cons p rest ih =>
    intro m hm q hq
    obtain ⟨pid, plsn⟩ := p
    rw [pendingMinLsn] at hm
    rcases hrest : pendingMinLsn rest with _ | m2 <;> rw [hrest] at hm
    · cases hm
      have hnil : rest = [] := (pendingMinLsn_none_iff rest).mp hrest
      subst hnil
      rcases List.mem_cons.mp hq with rfl | hq2
      · exact le_refl _
      · cases hq2
    · cases hm
      rcases List.mem_cons.mp hq with rfl | hq2
      · exact min_le_left _ _
      · exact le_trans (min_le_right _ _) (ih m2 hrest q hq2)

theorem pendingMinLsn_mem (ps : List (Nat × Nat)) :
    ∀ m, pendingMinLsn ps = some m → m ∈ ps.map Prod.snd := by
  induction ps with
  | nil => intro m hm; cases hm
  | cons p rest ih =>
    intro m hm
    obtain ⟨pid, plsn⟩ := p
    rw [pendingMinLsn] at hm
    rcases hrest : pendingMinLsn rest with _ | m2 <;> rw [hrest] at hm
    · cases hm
      exact List.mem_cons_self _ _
    · cases hm
      rcases Nat.le_total plsn m2 with hle | hle
      · rw [min_eq_left hle]
        exact List.mem_cons_self _ _
      · rw [min_eq_right hle]
        exact List.mem_cons_of_mem _ (ih m2 hrest)

theorem complete_eq_emit (t : AckTracker) (ack_id : Nat)
    (hlt : t.frontier_lsn < max t.frontier_lsn
      (match pendingMinLsn (t.pending.filter (fun p => p.fst != ack_id)) with
       | some m => m
       | none => t.last_registered_lsn)) :
    t.complete ack_id =
      (some (max t.frontier_lsn
        (match pendingMinLsn (t.pending.filter (fun p => p.fst != ack_id)) with
         | some m => m
         | none => t.last_registered_lsn)),
       { t with
           pending := t.pending.filter (fun p => p.fst != ack_id)
           frontier_lsn := max t.frontier_lsn
             (match pendingMinLsn (t.pending.filter (fun p => p.fst != ack_id)) with
              | some m => m
              | none => t.last_registered_lsn) }) := by
  rw [AckTracker.complete]
  simp only [if_pos hlt]

theorem complete_eq_silent (t : AckTracker) (ack_id : Nat)
    (hlt : ¬ t.frontier_lsn < max t.frontier_lsn
      (match pendingMinLsn (t.pending.filter (fun p => p.fst != ack_id)) with
       | some m => m
       | none => t.last_registered_lsn)) :
    t.complete ack_id =
      (none, { t with pending := t.pending.filter (fun p => p.fst != ack_id) }) := by
  rw [AckTracker.complete]
  simp only [if_neg hlt]

/-- Counterexample for claim C2: with initial LSN 100 and registered
LSNs 200, 300, 250, completing ack id 2 does emit a frontier (200,
since the minimum pending LSN 200 already exceeds the old frontier 100),
while the claim asserts completing 2 returns nothing. -/
theorem ack_complete_s1_counterexample :
    (((((AckTracker.new 100).register 200).2.register 300).2.register
        250).2.complete 2).1 = some 200 ∧
    (((((AckTracker.new 100).register 200).2.register 300).2.register
        250).2.complete 2).1 ≠ none := by
  constructor
  · decide
  · decide

/-- Claim C2 (amended): complete removes the ack id from pending; with L
the minimum remaining pending LSN (or the last registered LSN when
pending is empty) the frontier becomes the maximum of the old frontier
and L, and the new frontier is returned exactly when it strictly exceeds
the old one.  In the initial-100 / register 200, 300, 250 scenario,
completing ack id 2 returns frontier 200 (not nothing as the spec
scenario S1 states: the advancement rule raises the frontier to the
pending minimum 200 > 100), completing 3 then returns nothing, and
completing 1 returns frontier 300. -/
theorem ack_complete_spec :
    (∀ (ps : List (Nat × Nat)) (m : Nat), pendingMinLsn ps = some m →
      m ∈ ps.map Prod.snd ∧ ∀ q ∈ ps, m ≤ q.snd) ∧
    (∀ ps : List (Nat × Nat), pendingMinLsn ps = none ↔ ps = []) ∧
    (∀ (t : AckTracker) (ack_id : Nat),
      (t.complete ack_id).2.pending = t.pending.filter (fun p => p.fst != ack_id) ∧
      (t.complete ack_id).2.frontier_lsn =
        max t.frontier_lsn
          (match pendingMinLsn (t.pending.filter (fun p => p.fst != ack_id)) with
           | some m => m
           | none => t.last_registered_lsn) ∧
      ((t.complete ack_id).1 = some (t.complete ack_id).2.frontier_lsn ↔
        t.frontier_lsn < (t.complete ack_id).2.frontier_lsn) ∧
      ((t.complete ack_id).1 = none ↔
        ¬ t.frontier_lsn < (t.complete ack_id).2.frontier_lsn)) ∧
    (((((AckTracker.new 100).register 200).2.register 300).2.register
        250).2.complete 2) =
      (some 200, ⟨200, 300, [(1, 200), (3, 250)], 4⟩) ∧
    ((⟨200, 300, [(1, 200), (3, 250)], 4⟩ : AckTracker).complete 3) =
      (none, ⟨200, 300, [(1, 200)], 4⟩) ∧
    ((⟨200, 300, [(1, 200)], 4⟩ : AckTracker).complete 1) =
      (some 300, ⟨300, 300, [], 4⟩) := by
  refine ⟨fun ps m hm => ⟨pendingMinLsn_mem ps m hm, pendingMinLsn_le ps m hm⟩,
    pendingMinLsn_none_iff, ?_, by decide, by decide, by decide⟩
  intro t ack_id
  by_cases hlt : t.frontier_lsn < max t.frontier_lsn
      (match pendingMinLsn (t.pending.filter (fun p => p.fst != ack_id)) with
       | some m => m
       | none => t.last_registered_lsn)
  · rw [complete_eq_emit t ack_id hlt]
    refine ⟨rfl, rfl, ?_, ?_⟩
    · simp [hlt]
    · simp [hlt]
  · rw [complete_eq_silent t ack_id hlt]
    have hmax : max t.frontier_lsn
        (match pendingMinLsn (t.pending.filter (fun p => p.fst != ack_id)) with
         | some m => m
         | none => t.last_registered_lsn) = t.frontier_lsn :=
      le_antisymm (Nat.not_lt.mp hlt) (le_max_left _ _)
    refine ⟨rfl, hmax.symm, ?_, ?_⟩
    · simp
    · simp

/-- Witness for the C2 characterization at a concrete pending list:
its minimum is the least entry. -/
theorem ack_complete_spec_witness :
    pendingMinLsn [(1, 5), (2, 9)] = some 5 ∧ 5 ≤ 9 := by
  refine ⟨rfl, ?_⟩
  have h := (ack_complete_spec.1 [(1, 5), (2, 9)] 5 rfl).2 (2, 9) (by decide)
  exact h

theorem frontier_mono_step (t : AckTracker) (op : AckOp) :
    t.frontier_lsn ≤ (applyAckOp t op).frontier_lsn := by
  cases op with
  | doRegister lsn => exact le_refl _
  | doComplete ack_id =>
    rw [applyAckOp]
    by_cases hlt : t.frontier_lsn < max t.frontier_lsn
        (match pendingMinLsn (t.pending.filter (fun p => p.fst != ack_id)) with
         | some m => m
         | none => t.last_registered_lsn)
    · rw [complete_eq_emit t ack_id hlt]
      exact le_max_left _ _
    · rw [complete_eq_silent t ack_id hlt]

theorem frontier_mono_fold (ops : List AckOp) :
    ∀ t : AckTracker, t.frontier_lsn ≤ (ops.foldl applyAckOp t).frontier_lsn := by
  induction ops with
  | nil => intro t; exact le_refl _
  | cons op rest ih =>
    intro t
    exact le_trans (frontier_mono_step t op) (ih (applyAckOp t op))

theorem inv_step_register (t : AckTracker) (lsn : Nat)
    (hle : t.frontier_lsn ≤ lsn)
    (hinv : ∀ p ∈ t.pending, t.frontier_lsn ≤ p.snd) :
    ∀ p ∈ (applyAckOp t (.doRegister lsn)).pending,
      (applyAckOp t (.doRegister lsn)).frontier_lsn ≤ p.snd := by
  intro p hp
  rw [applyAckOp, AckTracker.register] at hp ⊢
  rcases List.mem_append.mp hp with hp1 | hp2
  · exact hinv p hp1
  · have : p = (t.next_id, lsn) := by
      rcases List.mem_cons.mp hp2 with h | h
      · exact h
      · cases h
    rw [this]
    exact hle

theorem inv_step_complete (t : AckTracker) (ack_id : Nat)
    (hinv : ∀ p ∈ t.pending, t.frontier_lsn ≤ p.snd) :
    ∀ p ∈ (applyAckOp t (.doComplete ack_id)).pending,
      (applyAckOp t (.doComplete ack_id)).frontier_lsn ≤ p.snd := by
  intro p hp
  rw [applyAckOp] at hp ⊢
  by_cases hlt : t.frontier_lsn < max t.frontier_lsn
      (match pendingMinLsn (t.pending.filter (fun p => p.fst != ack_id)) with
       | some m => m
       | none => t.last_registered_lsn)
  · rw [complete_eq_emit t ack_id hlt] at hp ⊢
    simp only at hp ⊢
    rcases hmin : pendingMinLsn (t.pending.filter (fun p => p.fst != ack_id)) with _ | m
    · have : t.pending.filter (fun p => p.fst != ack_id) = [] :=
        (pendingMinLsn_none_iff _).mp hmin
      rw [this] at hp
      cases hp
    · exact max_le (hinv p (List.mem_of_mem_filter hp))
        (pendingMinLsn_le _ m hmin p hp)
  · rw [complete_eq_silent t ack_id hlt] at hp ⊢
    exact hinv p (List.mem_of_mem_filter hp)

theorem inv_preserved (ops : List AckOp) :
    ∀ t : AckTracker, validAckOpsFrom t ops = true →
      (∀ p ∈ t.pending, t.frontier_lsn ≤ p.snd) →
      ∀ p ∈ (ops.foldl applyAckOp t).pending,
        (ops.foldl applyAckOp t).frontier_lsn ≤ p.snd := by
  induction ops with
  | nil => intro t _ hinv; exact hinv
  | cons op rest ih =>
    intro t hvalid hinv
    cases op with
    | doRegister lsn =>
      rw [validAckOpsFrom] at hvalid
      obtain ⟨hle, hrest⟩ := Bool.and_eq_true_iff.mp hvalid
      exact ih _ hrest (inv_step_register t lsn (of_decide_eq_true hle) hinv)
    | doComplete ack_id =>
      rw [validAckOpsFrom] at hvalid
      exact ih _ hvalid (inv_step_complete t ack_id hinv)

/-- Counterexample for claim C3: registering an LSN below the current
frontier (initial frontier 100, register 50) leaves a pending event
whose LSN is strictly below the frontier, falsifying the unconditional
invariant. -/
theorem ack_invariant_counterexample :
    (1, 50) ∈ (runAckOps 100 [.doRegister 50]).pending ∧
    (runAckOps 100 [.doRegister 50]).frontier_lsn = 100 ∧
    ¬ (runAckOps 100 [.doRegister 50]).frontier_lsn ≤ 50 := by
  refine ⟨by decide, by decide, by decide⟩

/-- Claim C3 (amended): over every operation sequence the frontier never
decreases; and provided every registered LSN is at least the frontier
current at its registration, the frontier stays at or below the LSN of
every registered-but-uncompleted event. -/
theorem ack_tracker_invariants :
    (∀ (t : AckTracker) (op : AckOp),
      t.frontier_lsn ≤ (applyAckOp t op).frontier_lsn) ∧
    (∀ (t : AckTracker) (ops : List AckOp),
      t.frontier_lsn ≤ (ops.foldl applyAckOp t).frontier_lsn) ∧
    ∀ (initial_lsn : Nat) (ops : List AckOp),
      validAckOpsFrom (AckTracker.new initial_lsn) ops = true →
      ∀ p ∈ (runAckOps initial_lsn ops).pending,
        (runAckOps initial_lsn ops).frontier_lsn ≤ p.snd := by
  refine ⟨frontier_mono_step, fun t ops => frontier_mono_fold ops t, ?_⟩
  intro initial_lsn ops hvalid p hp
  have hinit : ∀ q ∈ (AckTracker.new initial_lsn).pending,
      (AckTracker.new initial_lsn).frontier_lsn ≤ q.snd := by
    intro q hq
    cases hq
  exact inv_preserved ops (AckTracker.new initial_lsn) hvalid hinit p hp

/-- Witness for the C3 invariants on a concrete valid history: initial
LSN 3, register 50 (ack id 1), register 60, then complete 1; the event
with LSN 60 is still pending and the frontier stays at or below it. -/
theorem ack_tracker_invariants_witness :
    validAckOpsFrom (AckTracker.new 3)
      [.doRegister 50, .doRegister 60, .doComplete 1] = true ∧
    (2, 60) ∈ (runAckOps 3 [.doRegister 50, .doRegister 60, .doComplete 1]).pending ∧
    (runAckOps 3 [.doRegister 50, .doRegister 60, .doComplete 1]).frontier_lsn ≤ 60 := by
  refine ⟨by decide, by decide, ?_⟩
  exact ack_tracker_invariants.2.2 3 [.doRegister 50, .doRegister 60, .doComplete 1]
    (by decide) (2, 60) (by decide)

theorem registerAll_general (lsns : List Nat) :
    ∀ t : AckTracker,
      (registerAll t lsns).1 = List.range' t.next_id lsns.length ∧
      (registerAll t lsns).2.last_registered_lsn =
        lsns.foldl max t.last_registered_lsn := by
  induction lsns with
  | nil =>
    intro t
    exact ⟨rfl, rfl⟩
  | cons lsn rest ih =>
    intro t
    obtain ⟨hids, hlast⟩ := ih (t.register lsn).2
    constructor
    · rw [registerAll]
      simp only [AckTracker.register, List.length_cons] at hids ⊢
      rw [hids, List.range'_succ t.next_id rest.length 1]
    · rw [registerAll]
      simp only [AckTracker.register, List.foldl_cons] at hlast ⊢
      rw [hlast]

/-- Claim C4: the ack ids returned by a sequence of register calls are
exactly 1, 2, 3, ... in order; register accepts a regressive LSN; and
after every call the last registered LSN is the maximum of the initial
LSN and all LSNs registered so far.  The concrete regressive scenario S2
(initial 402348000, register 402348736 then 402348288) yields ids 1 and
2, keeps both events pending with their own LSNs, and leaves the last
registered LSN at 402348736. -/
theorem ack_register_spec :
    (∀ (initial_lsn : Nat) (lsns : List Nat),
      (registerAll (AckTracker.new initial_lsn) lsns).1 =
        List.range' 1 lsns.length) ∧
    (∀ (initial_lsn : Nat) (lsns : List Nat) (k : Nat),
      (registerAll (AckTracker.new initial_lsn) (lsns.take k)).2.last_registered_lsn =
        (lsns.take k).foldl max initial_lsn) ∧
    (registerAll (AckTracker.new 402348000) [402348736, 402348288]).1 = [1, 2] ∧
    (registerAll (AckTracker.new 402348000)
        [402348736, 402348288]).2.last_registered_lsn = 402348736 ∧
    (registerAll (AckTracker.new 402348000) [402348736, 402348288]).2.pending =
      [(1, 402348736), (2, 402348288)] := by
  refine ⟨?_, ?_, by decide, by decide, by decide⟩
  · intro initial_lsn lsns
    exact (registerAll_general lsns (AckTracker.new initial_lsn)).1
  · intro initial_lsn lsns k
    exact (registerAll_general (lsns.take k) (AckTracker.new initial_lsn)).2

/-- Claim C5: the replication reader starts from the maximum of the ack
tracker's frontier and its last registered LSN; with frontier 200 and
last registered 900 the start LSN is 900 and the issued statement reads
START_REPLICATION ... LOGICAL 0/384 .... -/
theorem resolve_start_lsn_spec :
    (∀ frontier_lsn last_registered_lsn : Nat,
      _resolve_start_lsn frontier_lsn last_registered_lsn =
        max frontier_lsn last_registered_lsn) ∧
    _resolve_start_lsn 200 900 = 900 ∧
    lsn_int_to_str 900 = "0/384" ∧
    start_replication_statement "slot_a" "opts"
        (_resolve_start_lsn 200 900) =
      "START_REPLICATION SLOT slot_a LOGICAL 0/384 (opts)" ∧
    _resolve_start_lsn 900 900 = 900 ∧
    _resolve_start_lsn 1200 900 = 1200 := by
  exact ⟨fun f l => rfl, by decide, by decide, by decide, by decide, by decide⟩

theorem resolve_slot_never_slot_missing (slot_name : String)
    (c r : PgValue) :
    _resolve_slot_start_lsn slot_name c r ≠ .error (.slotMissing slot_name) := by
  intro h
  cases c with
  | null =>
    rw [_resolve_slot_start_lsn] at h
    simp only [_parse_lsn_field] at h
    cases r with
    | null => cases h
    | text s =>
      rcases hres : lsn_str_to_int s with e | n <;>
        simp only [hres, Except.map] at h
      · cases h
        exact absurd (lsn_str_to_int_error_shape s _ hres) (by simp)
      · cases h
    | other ty_name =>
      cases h
  | text s =>
    rw [_resolve_slot_start_lsn] at h
    simp only [_parse_lsn_field] at h
    rcases hres : lsn_str_to_int s with e | n <;>
      simp only [hres, Except.map] at h
    · cases h
      exact absurd (lsn_str_to_int_error_shape s _ hres) (by simp)
    · cases h
  | other ty_name =>
    rw [_resolve_slot_start_lsn] at h
    simp only [_parse_lsn_field] at h
    cases h

/-- Claim C1: the slot lookup raises SlotMissing exactly when no row
comes back; otherwise it resolves the start LSN by preferring the parsed
confirmed_flush_lsn, then the parsed restart_lsn, then zero. -/
theorem slot_start_lsn_spec :
    (∀ (slot_name : String) (row : Option (PgValue × PgValue)),
      get_replication_slot_confirmed_lsn slot_name row =
          .error (.slotMissing slot_name) ↔ row = none) ∧
    (∀ (slot_name c : String) (r : PgValue) (n : Nat), lsn_str_to_int c = .ok n →
      get_replication_slot_confirmed_lsn slot_name (some (.text c, r)) = .ok n) ∧
    (∀ (slot_name r : String) (n : Nat), lsn_str_to_int r = .ok n →
      get_replication_slot_confirmed_lsn slot_name (some (.null, .text r)) = .ok n) ∧
    ∀ slot_name : String,
      get_replication_slot_confirmed_lsn slot_name (some (.null, .null)) = .ok 0 := by
  refine ⟨?_, ?_, ?_, fun slot_name => rfl⟩
  · intro slot_name row
    constructor
    · intro h
      rcases row with _ | ⟨c, r⟩
      · rfl
      · rw [get_replication_slot_confirmed_lsn] at h
        exact absurd h (resolve_slot_never_slot_missing slot_name c r)
    · rintro rfl
      rfl
  · intro slot_name c r n hok
    rw [get_replication_slot_confirmed_lsn, _resolve_slot_start_lsn]
    simp only [_parse_lsn_field, hok, Except.map]
  · intro slot_name r n hok
    rw [get_replication_slot_confirmed_lsn, _resolve_slot_start_lsn]
    simp only [_parse_lsn_field, hok, Except.map]

/-- Witness for C1 at the S3 scenario values: the confirmed flush LSN
wins when present, and a missing row raises SlotMissing. -/
theorem slot_start_lsn_spec_witness :
    lsn_str_to_int "16/B374D848" = .ok 0x16B374D848 ∧
    get_replication_slot_confirmed_lsn "slot_a"
        (some (.text "16/B374D848", .text "16/B0000000")) = .ok 0x16B374D848 ∧
    get_replication_slot_confirmed_lsn "slot_a" none =
      .error (.slotMissing "slot_a") := by
  refine ⟨rfl, ?_, ?_⟩
  · exact slot_start_lsn_spec.2.1 "slot_a" "16/B374D848" (.text "16/B0000000")
      0x16B374D848 rfl
  · exact (slot_start_lsn_spec.1 "slot_a" none).mpr rfl

/-- Claim C8: a leader cycle failing with a non-cancellation error logs
exactly one leader_cycle_failed record, closes the leader session once,
and re-enters leader election; a failed start-LSN lookup never starts
the pipeline (no fallback start LSN); cancellation propagates without
being logged as a failure.  The final conjunct replays the regression
test: one cycle whose lookup raises, then a cancelled election. -/
theorem driver_cycle_spec :
    (∀ (s : CycleScript) (rest : List CycleScript) (m : String),
      s.acquires = true → (cycleBody s).1 = .failure m →
      runDriver (s :: rest) =
        ⟨"leader_cycle_failed" :: (runDriver rest).error_logs,
         1 + (runDriver rest).session_closes,
         (cycleBody s).2 ++ (runDriver rest).pipeline_starts,
         (runDriver rest).outcome⟩) ∧
    (∀ (s : CycleScript) (m : String) (b : Bool),
      s.ensure_slot = .ok b → s.slot_lookup = .failure m →
      (cycleBody s).2 = []) ∧
    (∀ (s : CycleScript) (rest : List CycleScript),
      s.acquires = true → (cycleBody s).1 = .cancelled →
      runDriver (s :: rest) = ⟨[], 1, (cycleBody s).2, .cancelled⟩) ∧
    (∀ (s : CycleScript) (rest : List CycleScript),
      s.acquires = false →
      runDriver (s :: rest) = ⟨[], 0, [], .cancelled⟩) ∧
    runDriver
        [⟨true, .ok false, .failure "lookup failed", .ok ()⟩,
         ⟨false, .ok false, .ok 0, .ok ()⟩] =
      ⟨["leader_cycle_failed"], 1, [], .cancelled⟩ := by
  refine ⟨?_, ?_, ?_, ?_, by decide⟩
  · intro s rest m hacq hfail
    rcases hcb : cycleBody s with ⟨out, started⟩
    rw [hcb] at hfail
    simp only at hfail
    subst hfail
    simp [runDriver, hacq, hcb]
  · intro s m b hens hlook
    simp [cycleBody, hens, hlook]
  · intro s rest hacq hcanc
    rcases hcb : cycleBody s with ⟨out, started⟩
    rw [hcb] at hcanc
    simp only at hcanc
    subst hcanc
    simp [runDriver, hacq, hcb]
  · intro s rest hacq
    simp [runDriver, hacq]

/-- Witness for C8 at concrete cycle scripts: a pipeline failure logs
and loops into an exhausted script; a cancelled pipeline stops the run. -/
theorem driver_cycle_spec_witness :
    runDriver [⟨true, .ok false, .ok 7, .failure "pipeline blew up"⟩] =
      ⟨["leader_cycle_failed"], 1, [7], .scriptExhausted⟩ ∧
    runDriver [⟨true, .ok false, .ok 7, .cancelled⟩] =
      ⟨[], 1, [7], .cancelled⟩ ∧
    cycleBody ⟨true, .ok false, .failure "lookup failed", .ok ()⟩ = (.failure "lookup failed", []) := by
  refine ⟨?_, ?_, rfl⟩
  · have h := driver_cycle_spec.1 ⟨true, .ok false, .ok 7, .failure "pipeline blew up"⟩
      [] "pipeline blew up" rfl rfl
    rw [h]
    rfl
  · have h := driver_cycle_spec.2.2.1 ⟨true, .ok false, .ok 7, .cancelled⟩ [] rfl rfl
    rw [h]
    rfl

/-- Claim C9: the slot-creation statement runs exactly when the
existence query returns no row; the call returns True exactly when it
created the slot here and False exactly when the slot already existed;
errors from either query propagate; and every path closes the
connection. -/
theorem ensure_slot_spec (db : SlotDbScript) :
    (ensure_replication_slot db).connection_closed = true ∧
    ((ensure_replication_slot db).create_executed = true ↔
      db.exists_result = .ok none) ∧
    (db.exists_result = .ok (some ()) →
      (ensure_replication_slot db).result = .ok false) ∧
    (db.exists_result = .ok none → db.create_result = .ok () →
      (ensure_replication_slot db).result = .ok true) ∧
    ((ensure_replication_slot db).result = .ok true ↔
      db.exists_result = .ok none ∧ db.create_result = .ok ()) ∧
    ((ensure_replication_slot db).result = .ok false ↔
      db.exists_result = .ok (some ())) ∧
    (∀ e, db.exists_result = .error e →
      (ensure_replication_slot db).result = .error e) ∧
    ∀ e, db.exists_result = .ok none → db.create_result = .error e →
      (ensure_replication_slot db).result = .error e := by
  rcases db with ⟨ex, cr⟩
  rcases ex with e | exrow
  · rcases cr with ce | cu <;> simp [ensure_replication_slot]
  · rcases exrow with _ | u
    · rcases cr with ce | cu
      · simp [ensure_replication_slot]
      · cases cu
        simp [ensure_replication_slot]
    · cases u
      rcases cr with ce | cu <;> simp [ensure_replication_slot]

/-- Witness for C9 at concrete database scripts: a missing row leads to
creation and True, an existing row to False without creating. -/
theorem ensure_slot_spec_witness :
    (ensure_replication_slot ⟨.ok none, .ok ()⟩).result = .ok true ∧
    (ensure_replication_slot ⟨.ok (some ()), .ok ()⟩).result = .ok false ∧
    (ensure_replication_slot ⟨.ok (some ()), .ok ()⟩).create_executed = false ∧
    (ensure_replication_slot ⟨.error "connect refused", .ok ()⟩).connection_closed = true := by
  refine ⟨(ensure_slot_spec ⟨.ok none, .ok ()⟩).2.2.2.1 rfl rfl,
    (ensure_slot_spec ⟨.ok (some ()), .ok ()⟩).2.2.1 rfl, rfl,
    (ensure_slot_spec ⟨.error "connect refused", .ok ()⟩).1⟩

theorem encodeValue_total (v : PyValue) :
    ∃ j, encodeValue jsonDefaultHook v = some j := by
  cases v <;> simp [encodeValue, jsonDefaultHook]

theorem encodeExtra_total (extra : List (String × PyValue)) :
    ∃ js, encodeExtra jsonDefaultHook extra = some js := by
  induction extra with
  | nil => exact ⟨[], rfl⟩
  | cons kv rest ih =>
    obtain ⟨k, v⟩ := kv
    obtain ⟨j, hj⟩ := encodeValue_total v
    obtain ⟨js, hjs⟩ := ih
    exact ⟨(k, j) :: js, by simp [encodeExtra, hj, hjs]⟩

/-- Claim C10: the formatter always serializes successfully to a JSON
object (never raising even on non-serializable extra attributes), the
object always carries the timestamp, level, logger and message keys, it
carries exc_info exactly when the record has exception info, and the
default hook renders bytes-like extras via repr and anything else via
str. -/
theorem json_log_formatter_spec :
    (∀ r : LogRecord, ∃ fields,
      JsonLogFormatter.format jsonDefaultHook r = some (.jobj fields) ∧
      ("timestamp", Json.jstr r.timestamp_text) ∈ fields ∧
      ("level", Json.jstr r.levelname) ∈ fields ∧
      ("logger", Json.jstr r.name) ∈ fields ∧
      ("message", Json.jstr r.message) ∈ fields ∧
      ("exc_info" ∈ fields.map Prod.fst ↔ r.exc_text.isSome = true)) ∧
    (∀ repr_text, encodeValue jsonDefaultHook (.pyBytes repr_text) =
      some (.jstr repr_text)) ∧
    ∀ str_text, encodeValue jsonDefaultHook (.pyOther str_text) =
      some (.jstr str_text) := by
  refine ⟨?_, fun repr_text => rfl, fun str_text => rfl⟩
  intro r
  obtain ⟨ej, hej⟩ := encodeExtra_total r.extra
  rcases hexc : r.exc_text with _ | t
  · cases hex : r.extra with
    | nil =>
      refine ⟨[("timestamp", .jstr r.timestamp_text), ("level", .jstr r.levelname),
        ("logger", .jstr r.name), ("message", .jstr r.message)], ?_, by simp, by simp,
        by simp, by simp, ?_⟩
      · simp [JsonLogFormatter.format, hex, hexc]
      · simp [hexc]
    | cons kv rest =>
      rw [hex] at hej
      refine ⟨[("timestamp", .jstr r.timestamp_text), ("level", .jstr r.levelname),
        ("logger", .jstr r.name), ("message", .jstr r.message),
        ("extra", .jobj ej)], ?_, by simp, by simp, by simp, by simp, ?_⟩
      · simp [JsonLogFormatter.format, hex, hexc, hej]
      · simp [hexc]
  · cases hex : r.extra with
    | nil =>
      refine ⟨[("timestamp", .jstr r.timestamp_text), ("level", .jstr r.levelname),
        ("logger", .jstr r.name), ("message", .jstr r.message),
        ("exc_info", .jstr t)], ?_, by simp, by simp, by simp, by simp, ?_⟩
      · simp [JsonLogFormatter.format, hex, hexc]
      · simp [hexc]
    | cons kv rest =>
      rw [hex] at hej
      refine ⟨[("timestamp", .jstr r.timestamp_text), ("level", .jstr r.levelname),
        ("logger", .jstr r.name), ("message", .jstr r.message),
        ("extra", .jobj ej), ("exc_info", .jstr t)], ?_, by simp, by simp, by simp,
        by simp, ?_⟩
      · simp [JsonLogFormatter.format, hex, hexc, hej]
      · simp [hexc]
